import Mathlib

/-!
Verification of the crypto market liquidity tracker against its
natural-language specification.

The frontend (`apps/web/src/app/page.tsx`) is embedded directly from the
TypeScript source.  The backend core (order book store, status tracker,
metrics computer, smart order router) is documented in the spec and the
backend README but its source is not part of the repository snapshot, so
those components are modelled from the spec's words; each such definition
carries a doc comment starting with `Modelled from the spec:`.

Prices, sizes and fees are embedded as rationals (`ℚ`).
-/

/-! ## Frontend: chart-history ring buffer (`page.tsx`, `setChartData` updater) -/

/-- Embeds the `setChartData` updater in `page.tsx`:
`const updated = [...prev, newDataPoint]; return updated.slice(-50);`
JavaScript `slice(-50)` keeps the last 50 elements (all of them when the
array is shorter). -/
def appendChartPoint {α : Type} (prev : List α) (x : α) : List α :=
  (prev ++ [x]).drop ((prev ++ [x]).length - 50)

/-! ## Frontend: arbitrage calculator (`page.tsx`, `calculateArbitrage`) -/

/-- Result record returned by `calculateArbitrage` in `page.tsx`. -/
structure ArbResult where
  grossProfit : ℚ
  totalFees : ℚ
  netProfit : ℚ
  profitMargin : ℚ
  isProfitable : Bool
  deriving Repr, DecidableEq

/-- `EXCHANGE_FEES.binance.trading` in `page.tsx`. -/
def binanceTradingFee : ℚ := 1 / 1000

/-- `EXCHANGE_FEES.kraken.trading` in `page.tsx`. -/
def krakenTradingFee : ℚ := 26 / 10000

/-- Embeds `calculateArbitrage` from `page.tsx`.  The inputs are the
current `marketData.binance.ask` and `marketData.kraken.bid` (after the
`|| 0` defaulting) and the configured `alertSettings.arbitrageMinProfit`.
The source returns `null` when either price is `0`, otherwise an object
with gross profit, total fees, net profit, profit margin, and
`isProfitable: netProfit > alertSettings.arbitrageMinProfit`. -/
def calculateArbitrage (binanceAsk krakenBid arbitrageMinProfit : ℚ) :
    Option ArbResult :=
  if binanceAsk = 0 ∨ krakenBid = 0 then none
  else
    let grossProfit := krakenBid - binanceAsk
    let binanceFees := binanceAsk * binanceTradingFee
    let krakenFees := krakenBid * krakenTradingFee
    let totalFees := binanceFees + krakenFees
    let netProfit := grossProfit - totalFees
    some { grossProfit := grossProfit
           totalFees := totalFees
           netProfit := netProfit
           profitMargin := netProfit / binanceAsk * 100
           isProfitable := decide (arbitrageMinProfit < netProfit) }

/-! ## Frontend: demo market data constants (`page.tsx`, `demoMarketData`) -/

/-- `demoMarketData.binance.bid` in `page.tsx`. -/
def demoBinanceBid : ℚ := 117669.02

/-- `demoMarketData.binance.ask` in `page.tsx`. -/
def demoBinanceAsk : ℚ := 117669.03

/-- `demoMarketData.kraken.bid` in `page.tsx`. -/
def demoKrakenBid : ℚ := 117770.60

/-- `demoMarketData.kraken.ask` in `page.tsx`. -/
def demoKrakenAsk : ℚ := 117770.70

/-! ## Backend model: order book snapshots and the Order Book Store (spec §3, §4.2, §7) -/

/-- A price level `{price, size}` (spec §3). -/
structure PriceLevel where
  price : ℚ
  size : ℚ
  deriving Repr, DecidableEq

/-- Modelled from the spec: `OrderBookSnapshot` (§3); the backend source
holding this type is not in the repository snapshot.  Bids are meant to be
strictly descending by price, asks strictly ascending, best bid < best ask. -/
structure OrderBookSnapshot where
  venueId : String
  sequenceNumber : ℕ
  timestamp : ℕ
  bids : List PriceLevel
  asks : List PriceLevel
  deriving Repr, DecidableEq

/-- Checks that a price list is strictly descending. -/
def strictlyDescending : List ℚ → Bool
  | [] => true
  | [_] => true
  | a :: b :: rest => decide (b < a) && strictlyDescending (b :: rest)

/-- Checks that a price list is strictly ascending. -/
def strictlyAscending : List ℚ → Bool
  | [] => true
  | [_] => true
  | a :: b :: rest => decide (a < b) && strictlyAscending (b :: rest)

/-- Best bid strictly below best ask (vacuously true when a side is empty). -/
def uncrossedTop (s : OrderBookSnapshot) : Bool :=
  match s.bids.head?, s.asks.head? with
  | some b, some a => decide (b.price < a.price)
  | _, _ => true

/-- Modelled from the spec: validity of a proposed snapshot (§3 invariant,
§7 `CrossedBookAnomaly`). -/
def validSnapshot (s : OrderBookSnapshot) : Bool :=
  strictlyDescending (s.bids.map (·.price)) &&
  strictlyAscending (s.asks.map (·.price)) &&
  uncrossedTop s

/-- Modelled from the spec: the Order Book Store accepting a proposed
snapshot (§3 lifecycle, §7): a valid snapshot replaces the prior one
atomically; an invalid (e.g. crossed) snapshot is rejected and the prior
valid snapshot is retained. -/
def applySnapshot (store : Option OrderBookSnapshot) (s : OrderBookSnapshot) :
    Option OrderBookSnapshot :=
  if validSnapshot s then some s else store

theorem strictlyDescending_chain (l : List ℚ) :
    strictlyDescending l = true ↔ l.Chain' (· > ·) := by
  induction l with
  | nil => simp [strictlyDescending]
  | cons a l ih =>
    cases l with
    | nil => simp [strictlyDescending]
    | cons b rest =>
      simp only [strictlyDescending, Bool.and_eq_true, decide_eq_true_eq,
        List.chain'_cons] at *
      constructor
      · rintro ⟨h1, h2⟩; exact ⟨h1, ih.mp h2⟩
      · rintro ⟨h1, h2⟩; exact ⟨h1, ih.mpr h2⟩

theorem strictlyAscending_chain (l : List ℚ) :
    strictlyAscending l = true ↔ l.Chain' (· < ·) := by
  induction l with
  | nil => simp [strictlyAscending]
  | cons a l ih =>
    cases l with
    | nil => simp [strictlyAscending]
    | cons b rest =>
      simp only [strictlyAscending, Bool.and_eq_true, decide_eq_true_eq,
        List.chain'_cons] at *
      constructor
      · rintro ⟨h1, h2⟩; exact ⟨h1, ih.mp h2⟩
      · rintro ⟨h1, h2⟩; exact ⟨h1, ih.mpr h2⟩

theorem validSnapshot_stored (store : Option OrderBookSnapshot)
    (s t : OrderBookSnapshot)
    (hstore : ∀ u, store = some u → validSnapshot u = true)
    (happ : applySnapshot store s = some t) : validSnapshot t = true := by
  unfold applySnapshot at happ
  by_cases hv : validSnapshot s = true
  · rw [if_pos hv] at happ
    cases happ
    exact hv
  · rw [if_neg hv] at happ
    exact hstore t happ

/-- C4: every snapshot held by the Order Book Store has bids strictly
descending by price, asks strictly ascending by price, and best bid price
strictly below best ask price; a proposed snapshot whose best bid is at or
above its best ask (crossed book) is rejected and the prior stored
snapshot is retained unchanged. -/
theorem C4_store_invariant (store : Option OrderBookSnapshot)
    (s : OrderBookSnapshot)
    (hstore : ∀ u, store = some u → validSnapshot u = true) :
    (∀ t, applySnapshot store s = some t →
        (t.bids.map (·.price)).Pairwise (· > ·) ∧
        (t.asks.map (·.price)).Pairwise (· < ·) ∧
        ∀ b a, t.bids.head? = some b → t.asks.head? = some a →
          b.price < a.price) ∧
    (∀ b a, s.bids.head? = some b → s.asks.head? = some a →
        a.price ≤ b.price → applySnapshot store s = store) := by
  constructor
  · intro t happ
    have hv := validSnapshot_stored store s t hstore happ
    unfold validSnapshot at hv
    rw [Bool.and_eq_true, Bool.and_eq_true] at hv
    obtain ⟨⟨hd, ha⟩, hu⟩ := hv
    refine ⟨?_, ?_, ?_⟩
    · exact List.chain'_iff_pairwise.mp ((strictlyDescending_chain _).mp hd)
    · exact List.chain'_iff_pairwise.mp ((strictlyAscending_chain _).mp ha)
    · intro b a hb ha'
      unfold uncrossedTop at hu
      rw [hb, ha'] at hu
      simpa using hu
  · intro b a hb ha hle
    have hcross : uncrossedTop s = false := by
      unfold uncrossedTop
      rw [hb, ha]
      simp [not_lt.mpr hle]
    have hv : validSnapshot s = false := by
      unfold validSnapshot
      rw [hcross]
      simp
    unfold applySnapshot
    simp [hv]

/-- A well-formed snapshot used as a stored prior state. -/
def demoGoodSnapshot : OrderBookSnapshot :=
  { venueId := "binance", sequenceNumber := 1, timestamp := 0,
    bids := [⟨100, 1⟩, ⟨99, 2⟩], asks := [⟨101, 1⟩, ⟨102, 2⟩] }

/-- A crossed proposed snapshot (bid 105 ≥ ask 104). -/
def demoCrossedSnapshot : OrderBookSnapshot :=
  { venueId := "binance", sequenceNumber := 2, timestamp := 1,
    bids := [⟨105, 1⟩], asks := [⟨104, 1⟩] }

theorem C4_store_invariant_witness :
    applySnapshot (some demoGoodSnapshot) demoCrossedSnapshot
      = some demoGoodSnapshot ∧
    (demoGoodSnapshot.bids.map (·.price)).Pairwise (· > ·) ∧
    (demoGoodSnapshot.asks.map (·.price)).Pairwise (· < ·) := by
  have h := C4_store_invariant (some demoGoodSnapshot) demoCrossedSnapshot
    (by intro u hu; cases hu; decide)
  have happ : applySnapshot (some demoGoodSnapshot) demoCrossedSnapshot
      = some demoGoodSnapshot :=
    h.2 ⟨105, 1⟩ ⟨104, 1⟩ rfl rfl (by norm_num)
  have h1 := h.1 demoGoodSnapshot happ
  exact ⟨happ, h1.1, h1.2.1⟩

/-! ## Backend model: Metrics Computer (spec §4.4) -/

/-- Modelled from the spec: the per-venue state read by the Metrics
Computer and the Smart Order Router each tick (§4.4, §4.5): the venue's
current book, its configured taker fee, and whether its health is stale
(stale venues do not qualify for the tick). -/
structure VenueBook where
  venueId : String
  bids : List PriceLevel
  asks : List PriceLevel
  takerFee : ℚ
  stale : Bool
  deriving Repr, DecidableEq

/-- Modelled from the spec: configuration consumed by the core (§6):
minimum required venue count and the metrics depth window in bps. -/
structure MetricsConfig where
  minVenues : ℕ
  windowBps : ℚ
  deriving Repr, DecidableEq

/-- Modelled from the spec: `ConsolidatedMetrics` (§3), with the
staleness flag of §4.4 (metrics not updated) and the low-confidence flag
of §4.4's zero-depth edge case. -/
structure ConsolidatedMetrics where
  mid : ℚ
  spreadBps : ℚ
  depth : ℚ
  hhi : ℚ
  imbalance : ℚ
  venueShares : List (String × ℚ)
  stale : Bool
  lowConfidence : Bool
  deriving Repr, DecidableEq

/-- A venue's best (highest) bid price, `0` when its bid side is empty. -/
def venueBestBid (v : VenueBook) : ℚ := ((v.bids.head?).map (·.price)).getD 0

/-- A venue's best (lowest) ask price, `0` when its ask side is empty. -/
def venueBestAsk (v : VenueBook) : ℚ := ((v.asks.head?).map (·.price)).getD 0

/-- A venue's own mid price `(bestBid + bestAsk) / 2` (spec §4.4). -/
def venueMid (v : VenueBook) : ℚ := (venueBestBid v + venueBestAsk v) / 2

/-- The venues whose health is not stale, i.e. that qualify for a tick. -/
def qualifying (vs : List VenueBook) : List VenueBook :=
  vs.filter (fun v => !v.stale)

/-- Modelled from the spec: consolidated `mid` = arithmetic mean of each
qualifying venue's own mid price (§4.4). -/
def consolidatedMid (vs : List VenueBook) : ℚ :=
  (vs.map venueMid).sum / vs.length

/-- Whether a price lies within ±`windowBps` basis points of `mid`. -/
def inWindow (windowBps mid price : ℚ) : Bool :=
  decide (|price - mid| ≤ mid * windowBps / 10000)

/-- Resting size of one book side within the price window. -/
def windowedSideDepth (windowBps mid : ℚ) (levels : List PriceLevel) : ℚ :=
  ((levels.filter (fun l => inWindow windowBps mid l.price)).map (·.size)).sum

/-- A venue's windowed bid depth. -/
def windowedBidDepth (windowBps mid : ℚ) (v : VenueBook) : ℚ :=
  windowedSideDepth windowBps mid v.bids

/-- A venue's windowed ask depth. -/
def windowedAskDepth (windowBps mid : ℚ) (v : VenueBook) : ℚ :=
  windowedSideDepth windowBps mid v.asks

/-- A venue's windowed depth: bid-side plus ask-side size in the window. -/
def windowedDepth (windowBps mid : ℚ) (v : VenueBook) : ℚ :=
  windowedBidDepth windowBps mid v + windowedAskDepth windowBps mid v

/-- Total windowed depth across the given venues, window centred on the
consolidated mid. -/
def totalWindowedDepth (cfg : MetricsConfig) (vs : List VenueBook) : ℚ :=
  (vs.map (windowedDepth cfg.windowBps (consolidatedMid vs))).sum

/-- Number of venues contributing nonzero windowed depth. -/
def contributingCount (cfg : MetricsConfig) (vs : List VenueBook) : ℕ :=
  ((vs.map (windowedDepth cfg.windowBps (consolidatedMid vs))).filter
    (fun d => d != 0)).length

/-- Best bid price across venues (`0` when no venue has a bid). -/
def bestBidAcross (vs : List VenueBook) : ℚ :=
  ((vs.map venueBestBid).max?).getD 0

/-- Best ask price across venues (`0` when no venue has an ask). -/
def bestAskAcross (vs : List VenueBook) : ℚ :=
  ((vs.map venueBestAsk).min?).getD 0

/-- Modelled from the spec: one metrics computation over the qualifying
venues (§4.4): `mid` is the mean of venue mids; `spreadBps` is the
consolidated best-ask-across-venues minus best-bid-across-venues divided
by `mid`, ×10,000; `depth` is the windowed depth sum; `hhi`, `imbalance`
and `venueShares` are depth-share statistics, all reported as zero with a
low-confidence flag when total windowed depth is zero. -/
def computeMetrics (cfg : MetricsConfig) (vs : List VenueBook) :
    ConsolidatedMetrics :=
  let mid := consolidatedMid vs
  let ds := vs.map (windowedDepth cfg.windowBps mid)
  let total := ds.sum
  let bidD := (vs.map (windowedBidDepth cfg.windowBps mid)).sum
  let askD := (vs.map (windowedAskDepth cfg.windowBps mid)).sum
  { mid := mid
    spreadBps := (bestAskAcross vs - bestBidAcross vs) / mid * 10000
    depth := total
    hhi := if total = 0 then 0 else (ds.map (fun d => (d / total) ^ 2)).sum
    imbalance := if total = 0 then 0 else (bidD - askD) / total
    venueShares := vs.map (fun v => (v.venueId,
      if total = 0 then 0 else windowedDepth cfg.windowBps mid v / total))
    stale := false
    lowConfidence := decide (total = 0) }

/-- Modelled from the spec: one Metrics Computer tick (§4.4): if fewer
than the required minimum venues qualify, the prior value is retained with
a staleness flag; otherwise the metrics are recomputed wholesale from the
qualifying venues. -/
def tick (cfg : MetricsConfig) (prior : ConsolidatedMetrics)
    (vs : List VenueBook) : ConsolidatedMetrics :=
  if (qualifying vs).length < cfg.minVenues then { prior with stale := true }
  else computeMetrics cfg (qualifying vs)

/-- Demo venue book for Binance, top of book from `demoMarketData` in
`page.tsx` and the bid sizes shown in the order-book table there (the
demo table lists no ask sizes; the ask size is immaterial to the claims). -/
def demoBinanceBook : VenueBook :=
  { venueId := "binance"
    bids := [⟨demoBinanceBid, 2.02⟩, ⟨demoBinanceBid - 0.01, 0.02⟩]
    asks := [⟨demoBinanceAsk, 1⟩]
    takerFee := binanceTradingFee
    stale := false }

/-- Demo venue book for Kraken, analogous to `demoBinanceBook`. -/
def demoKrakenBook : VenueBook :=
  { venueId := "kraken"
    bids := [⟨demoKrakenBid, 1.70⟩, ⟨demoKrakenBid - 0.10, 0.03⟩]
    asks := [⟨demoKrakenAsk, 1⟩]
    takerFee := krakenTradingFee
    stale := false }

/-- Demo configuration: two required venues, ±50bps window (§6). -/
def demoCfg : MetricsConfig := { minVenues := 2, windowBps := 50 }

/-- An all-zero prior metrics value (state before the first update). -/
def initialMetrics : ConsolidatedMetrics :=
  { mid := 0, spreadBps := 0, depth := 0, hhi := 0, imbalance := 0,
    venueShares := [], stale := true, lowConfidence := true }

/-- C1: whenever at least the required minimum of venues qualifies, the
tick's consolidated mid is the arithmetic mean of the qualifying venues'
own mid prices ((bestBid+bestAsk)/2); in particular, on the demo
two-venue input, venue mids are 117,669.025 and 117,770.65 and the
consolidated mid is exactly 117,719.8375. -/
theorem C1_consolidated_mid :
    (∀ (cfg : MetricsConfig) (prior : ConsolidatedMetrics)
        (vs : List VenueBook),
        cfg.minVenues ≤ (qualifying vs).length →
        (tick cfg prior vs).mid
          = ((qualifying vs).map venueMid).sum / (qualifying vs).length) ∧
    venueMid demoBinanceBook = 117669.025 ∧
    venueMid demoKrakenBook = 117770.65 ∧
    (tick demoCfg initialMetrics [demoBinanceBook, demoKrakenBook]).mid
      = 117719.8375 := by
  refine ⟨?_, ?_, ?_, ?_⟩
  · intro cfg prior vs h
    unfold tick
    rw [if_neg (not_lt.mpr h)]
    rfl
  · norm_num [venueMid, venueBestBid, venueBestAsk, demoBinanceBook,
      demoBinanceBid, demoBinanceAsk]
  · norm_num [venueMid, venueBestBid, venueBestAsk, demoKrakenBook,
      demoKrakenBid, demoKrakenAsk]
  · norm_num [tick, computeMetrics, qualifying, consolidatedMid, venueMid,
      venueBestBid, venueBestAsk, demoCfg, demoBinanceBook, demoKrakenBook,
      demoBinanceBid, demoBinanceAsk, demoKrakenBid, demoKrakenAsk]

theorem C1_consolidated_mid_witness :
    demoCfg.minVenues ≤ (qualifying [demoBinanceBook, demoKrakenBook]).length ∧
    (tick demoCfg initialMetrics [demoBinanceBook, demoKrakenBook]).mid
      = ((qualifying [demoBinanceBook, demoKrakenBook]).map venueMid).sum
        / (qualifying [demoBinanceBook, demoKrakenBook]).length :=
  ⟨by decide, C1_consolidated_mid.1 demoCfg initialMetrics _ (by decide)⟩

/-- C5: whenever at least the required minimum of venues qualifies, the
tick's `spreadBps` is the best ask across qualifying venues minus the
best bid across qualifying venues, divided by the consolidated mid,
×10,000; on the demo input this divides by the consolidated mid
117,719.8375, and dividing by the per-venue Binance bid instead would
give a different value. -/
theorem C5_spread_bps :
    (∀ (cfg : MetricsConfig) (prior : ConsolidatedMetrics)
        (vs : List VenueBook),
        cfg.minVenues ≤ (qualifying vs).length →
        (tick cfg prior vs).spreadBps
          = (bestAskAcross (qualifying vs) - bestBidAcross (qualifying vs))
            / (tick cfg prior vs).mid * 10000) ∧
    (tick demoCfg initialMetrics [demoBinanceBook, demoKrakenBook]).spreadBps
      = (117669.03 - 117770.60) / 117719.8375 * 10000 ∧
    ((117669.03 - 117770.60) / 117719.8375 * 10000 : ℚ)
      ≠ (117669.03 - 117770.60) / demoBinanceBid * 10000 := by
  refine ⟨?_, ?_, ?_⟩
  · intro cfg prior vs h
    unfold tick
    rw [if_neg (not_lt.mpr h)]
    rfl
  · norm_num [tick, computeMetrics, qualifying, consolidatedMid, venueMid,
      venueBestBid, venueBestAsk, bestAskAcross, bestBidAcross, List.max?,
      List.min?, demoCfg, demoBinanceBook, demoKrakenBook,
      demoBinanceBid, demoBinanceAsk, demoKrakenBid, demoKrakenAsk]
  · norm_num [demoBinanceBid]

theorem C5_spread_bps_witness :
    demoCfg.minVenues ≤ (qualifying [demoBinanceBook, demoKrakenBook]).length ∧
    (tick demoCfg initialMetrics [demoBinanceBook, demoKrakenBook]).spreadBps
      = (bestAskAcross (qualifying [demoBinanceBook, demoKrakenBook])
          - bestBidAcross (qualifying [demoBinanceBook, demoKrakenBook]))
        / (tick demoCfg initialMetrics [demoBinanceBook, demoKrakenBook]).mid
        * 10000 :=
  ⟨by decide, C5_spread_bps.1 demoCfg initialMetrics _ (by decide)⟩

/-- C7: on a tick whose total windowed depth is zero, no division by zero
is performed: `hhi`, `imbalance` and every `venueShares` entry are
reported as exactly zero and the tick carries the low-confidence flag. -/
theorem C7_zero_depth_guard (cfg : MetricsConfig)
    (prior : ConsolidatedMetrics) (vs : List VenueBook)
    (hmin : cfg.minVenues ≤ (qualifying vs).length)
    (hzero : totalWindowedDepth cfg (qualifying vs) = 0) :
    (tick cfg prior vs).hhi = 0 ∧ (tick cfg prior vs).imbalance = 0 ∧
    (∀ p ∈ (tick cfg prior vs).venueShares, p.2 = 0) ∧
    (tick cfg prior vs).lowConfidence = true := by
  unfold tick
  rw [if_neg (not_lt.mpr hmin)]
  have hz : ((qualifying vs).map
      (windowedDepth cfg.windowBps (consolidatedMid (qualifying vs)))).sum
        = 0 := hzero
  refine ⟨by simp [computeMetrics, hz], by simp [computeMetrics, hz], ?_,
    by simp [computeMetrics, hz]⟩
  intro p hp
  simp [computeMetrics, hz] at hp
  obtain ⟨v, hv, rfl⟩ := hp
  rfl

/-- A connected venue with an empty book: zero windowed depth. -/
def emptyBookVenueA : VenueBook :=
  { venueId := "a", bids := [], asks := [], takerFee := 0, stale := false }

/-- A second connected venue with an empty book. -/
def emptyBookVenueB : VenueBook :=
  { venueId := "b", bids := [], asks := [], takerFee := 0, stale := false }

theorem C7_zero_depth_guard_witness :
    demoCfg.minVenues
      ≤ (qualifying [emptyBookVenueA, emptyBookVenueB]).length ∧
    totalWindowedDepth demoCfg (qualifying [emptyBookVenueA, emptyBookVenueB])
      = 0 ∧
    (tick demoCfg initialMetrics [emptyBookVenueA, emptyBookVenueB]).hhi = 0 ∧
    (tick demoCfg initialMetrics
      [emptyBookVenueA, emptyBookVenueB]).lowConfidence = true :=
  ⟨by decide, by simp [totalWindowedDepth, qualifying, windowedDepth,
      windowedBidDepth, windowedAskDepth, windowedSideDepth,
      emptyBookVenueA, emptyBookVenueB],
    (C7_zero_depth_guard demoCfg initialMetrics _ (by decide)
      (by simp [totalWindowedDepth, qualifying, windowedDepth,
        windowedBidDepth, windowedAskDepth, windowedSideDepth,
        emptyBookVenueA, emptyBookVenueB])).1,
    (C7_zero_depth_guard demoCfg initialMetrics _ (by decide)
      (by simp [totalWindowedDepth, qualifying, windowedDepth,
        windowedBidDepth, windowedAskDepth, windowedSideDepth,
        emptyBookVenueA, emptyBookVenueB])).2.2.2⟩

theorem list_sum_map_div (l : List ℚ) (c : ℚ) :
    (l.map (fun x => x / c)).sum = l.sum / c := by
  induction l with
  | nil => simp
  | cons x xs ih => simp [ih, add_div]

theorem list_sum_sq_le_sq_sum (l : List ℚ) (h : ∀ x ∈ l, 0 ≤ x) :
    (l.map (fun x => x ^ 2)).sum ≤ l.sum ^ 2 := by
  induction l with
  | nil => simp
  | cons x xs ih =>
    have hx : 0 ≤ x := h x (by simp)
    have hxs : ∀ y ∈ xs, 0 ≤ y := fun y hy => h y (by simp [hy])
    have hS : 0 ≤ xs.sum := List.sum_nonneg hxs
    have hIH := ih hxs
    simp only [List.map_cons, List.sum_cons]
    nlinarith [mul_nonneg hx hS]

theorem list_sq_sum_le_count_mul_sum_sq (l : List ℚ) (h : ∀ x ∈ l, 0 ≤ x) :
    l.sum ^ 2 ≤ ((l.filter (fun x => x != 0)).length : ℚ)
      * (l.map (fun x => x ^ 2)).sum := by
  induction l with
  | nil => simp
  | cons x xs ih =>
    have hx : 0 ≤ x := h x (by simp)
    have hxs : ∀ y ∈ xs, 0 ≤ y := fun y hy => h y (by simp [hy])
    have hS : 0 ≤ xs.sum := List.sum_nonneg hxs
    have hQ : 0 ≤ (xs.map (fun x => x ^ 2)).sum := by
      apply List.sum_nonneg
      intro y hy
      obtain ⟨z, hz, rfl⟩ := List.mem_map.mp hy
      positivity
    have hIH := ih hxs
    by_cases hx0 : x = 0
    · subst hx0
      simp only [List.map_cons, List.sum_cons, List.filter_cons]
      norm_num
      exact hIH
    · have hcount : ((x :: xs).filter (fun y => y != 0)).length
          = (xs.filter (fun y => y != 0)).length + 1 := by
        simp [List.filter_cons, hx0]
      by_cases hN0 : (xs.filter (fun y => y != 0)).length = 0
      · have hnil : xs.filter (fun y => y != 0) = [] :=
          List.length_eq_zero.mp hN0
        have hall : ∀ y ∈ xs, y = 0 := by
          intro y hy
          by_contra hne
          have hmem : y ∈ xs.filter (fun y => y != 0) :=
            List.mem_filter.mpr ⟨hy, by simp [hne]⟩
          rw [hnil] at hmem
          exact absurd hmem (List.not_mem_nil y)
        have hS0 : xs.sum = 0 := List.sum_eq_zero hall
        have hQ0 : (xs.map (fun x => x ^ 2)).sum = 0 := by
          apply List.sum_eq_zero
          intro y hy
          obtain ⟨z, hz, rfl⟩ := List.mem_map.mp hy
          rw [hall z hz]
          ring
        simp only [List.map_cons, List.sum_cons, hcount, hN0, hS0, hQ0]
        norm_num
      · have hN1 : 1 ≤ ((xs.filter (fun y => y != 0)).length : ℚ) := by
          exact_mod_cast Nat.one_le_iff_ne_zero.mpr hN0
        simp only [List.map_cons, List.sum_cons, hcount]
        push_cast
        set N : ℚ := ((xs.filter (fun y => y != 0)).length : ℚ) with hNdef
        set S : ℚ := xs.sum with hSdef
        set Q : ℚ := (xs.map (fun x => x ^ 2)).sum with hQdef
        have key : 0 ≤ (N * x - S) ^ 2 + (N + 1) * (N * Q - S ^ 2) :=
          add_nonneg (sq_nonneg _)
            (mul_nonneg (by linarith) (by linarith))
        have hid : N * ((N + 1) * (x ^ 2 + Q) - (x + S) ^ 2)
            = (N * x - S) ^ 2 + (N + 1) * (N * Q - S ^ 2) := by ring
        have hmul : 0 ≤ N * ((N + 1) * (x ^ 2 + Q) - (x + S) ^ 2) := by
          rw [hid]; exact key
        have hpos : (0 : ℚ) < N := by linarith
        nlinarith [hmul, hpos]

theorem filter_ne_zero_map_div (l : List ℚ) (c : ℚ) (hc : c ≠ 0) :
    ((l.map (fun x => x / c)).filter (fun x => x != 0)).length
      = (l.filter (fun x => x != 0)).length := by
  induction l with
  | nil => rfl
  | cons x xs ih =>
    simp only [List.map_cons, List.filter_cons]
    by_cases hx : x = 0
    · subst hx
      simp [ih]
    · have hxc : x / c ≠ 0 := div_ne_zero hx hc
      simp [hx, hxc, ih]

/-- C6: in a metrics computation where `N ≥ 1` venues contribute nonzero
windowed depth, the computed `hhi` (sum of squared per-venue depth
shares) lies in the closed interval `[1/N, 1]`. -/
theorem C6_hhi_range (cfg : MetricsConfig) (vs : List VenueBook)
    (hsz : ∀ v ∈ vs, (∀ l ∈ v.bids, 0 ≤ l.size) ∧ (∀ l ∈ v.asks, 0 ≤ l.size))
    (hN : 1 ≤ contributingCount cfg vs) :
    1 / (contributingCount cfg vs : ℚ) ≤ (computeMetrics cfg vs).hhi ∧
    (computeMetrics cfg vs).hhi ≤ 1 := by
  have hds : ∀ d ∈ vs.map (windowedDepth cfg.windowBps (consolidatedMid vs)),
      0 ≤ d := by
    intro d hd
    obtain ⟨v, hv, rfl⟩ := List.mem_map.mp hd
    unfold windowedDepth windowedBidDepth windowedAskDepth windowedSideDepth
    apply add_nonneg <;>
      · apply List.sum_nonneg
        intro y hy
        obtain ⟨l, hl, rfl⟩ := List.mem_map.mp hy
        first
          | exact (hsz v hv).1 l (List.mem_filter.mp hl).1
          | exact (hsz v hv).2 l (List.mem_filter.mp hl).1
  set ds := vs.map (windowedDepth cfg.windowBps (consolidatedMid vs))
    with hdsdef
  have hlen : 0 < (ds.filter (fun d => d != 0)).length := hN
  obtain ⟨d0, hd0⟩ := List.exists_mem_of_length_pos hlen
  have hd0mem : d0 ∈ ds := (List.mem_filter.mp hd0).1
  have hd0ne : d0 ≠ 0 := by simpa using (List.mem_filter.mp hd0).2
  have hd0pos : 0 < d0 := lt_of_le_of_ne (hds d0 hd0mem) (Ne.symm hd0ne)
  have htot : 0 < ds.sum :=
    lt_of_lt_of_le hd0pos (List.single_le_sum hds d0 hd0mem)
  have htotne : ds.sum ≠ 0 := ne_of_gt htot
  have hhhi : (computeMetrics cfg vs).hhi
      = (ds.map (fun d => (d / ds.sum) ^ 2)).sum := by
    simp [computeMetrics, htotne, hdsdef]
  set shares := ds.map (fun d => d / ds.sum) with hshares
  have hmapsq : shares.map (fun x => x ^ 2)
      = ds.map (fun d => (d / ds.sum) ^ 2) := by
    rw [hshares, List.map_map]
    rfl
  have hsum1 : shares.sum = 1 := by
    rw [hshares, list_sum_map_div, div_self htotne]
  have hnn' : ∀ x ∈ shares, 0 ≤ x := by
    intro x hx
    obtain ⟨d, hd, rfl⟩ := List.mem_map.mp hx
    exact div_nonneg (hds d hd) (le_of_lt htot)
  have hcnt : ((shares.filter (fun x => x != 0)).length : ℚ)
      = (contributingCount cfg vs : ℚ) := by
    rw [hshares, filter_ne_zero_map_div ds ds.sum htotne]
    rfl
  constructor
  · have hlow := list_sq_sum_le_count_mul_sum_sq shares hnn'
    rw [hsum1, hmapsq, ← hhhi, hcnt] at hlow
    have hNpos : (0 : ℚ) < (contributingCount cfg vs : ℚ) := by
      exact_mod_cast hN
    rw [div_le_iff₀ hNpos]
    nlinarith [hlow]
  · have hup := list_sum_sq_le_sq_sum shares hnn'
    rw [hsum1, hmapsq, ← hhhi] at hup
    simpa using hup

/-- A venue with symmetric unit depth around price 100. -/
def hhiVenueA : VenueBook :=
  { venueId := "a", bids := [⟨99, 1⟩], asks := [⟨101, 1⟩],
    takerFee := 0, stale := false }

/-- A second venue with symmetric unit depth around price 100. -/
def hhiVenueB : VenueBook :=
  { venueId := "b", bids := [⟨99, 1⟩], asks := [⟨101, 1⟩],
    takerFee := 0, stale := false }

/-- A configuration with a ±100% depth window. -/
def hhiCfg : MetricsConfig := { minVenues := 2, windowBps := 10000 }

theorem C6_hhi_range_witness :
    (∀ v ∈ [hhiVenueA, hhiVenueB],
      (∀ l ∈ v.bids, 0 ≤ l.size) ∧ (∀ l ∈ v.asks, 0 ≤ l.size)) ∧
    1 ≤ contributingCount hhiCfg [hhiVenueA, hhiVenueB] ∧
    1 / (contributingCount hhiCfg [hhiVenueA, hhiVenueB] : ℚ)
      ≤ (computeMetrics hhiCfg [hhiVenueA, hhiVenueB]).hhi ∧
    (computeMetrics hhiCfg [hhiVenueA, hhiVenueB]).hhi ≤ 1 := by
  have hsz : ∀ v ∈ [hhiVenueA, hhiVenueB],
      (∀ l ∈ v.bids, 0 ≤ l.size) ∧ (∀ l ∈ v.asks, 0 ≤ l.size) := by
    norm_num [hhiVenueA, hhiVenueB]
  have hN : 1 ≤ contributingCount hhiCfg [hhiVenueA, hhiVenueB] := by
    have h2 : ((2 : ℚ) != 0) = true := by norm_num
    norm_num [contributingCount, windowedDepth, windowedBidDepth,
      windowedAskDepth, windowedSideDepth, consolidatedMid, venueMid,
      venueBestBid, venueBestAsk, inWindow, hhiCfg, hhiVenueA, hhiVenueB,
      List.filter, h2]
  have h := C6_hhi_range hhiCfg [hhiVenueA, hhiVenueB] hsz hN
  exact ⟨hsz, hN, h.1, h.2⟩

/-! ## Backend model: Status Tracker state and Smart Order Router (spec §4.3, §4.5) -/

/-- Modelled from the spec: `SystemStatus` (§3), owned by the Status
Tracker (§4.3). -/
inductive SystemStatus where
  | warming
  | live
  | degraded
  deriving Repr, DecidableEq

/-- Order side for an execution request. -/
inductive Side where
  | buy
  | sell
  deriving Repr, DecidableEq

/-- Modelled from the spec: the structured failures an execute request
can return (§7): `InvalidState` when the system is not Live,
`InsufficientLiquidity` when aggregate depth cannot fill the request. -/
inductive ExecError where
  | invalidState
  | insufficientLiquidity
  deriving Repr, DecidableEq

/-- One level of the merged cross-venue sequence walked by the SOR:
its venue, price, resting size, and that venue's taker fee. -/
structure RouteLevel where
  venueId : String
  price : ℚ
  size : ℚ
  fee : ℚ
  deriving Repr, DecidableEq

/-- One fill produced by the SOR walk, with the taker fee of the venue
it was filled at. -/
structure RawFill where
  venueId : String
  quantity : ℚ
  price : ℚ
  fee : ℚ
  deriving Repr, DecidableEq

/-- An entry of `ExecutionResult.venueBreakdown` (spec §3):
`(venueId, quantity, price)`. -/
structure Fill where
  venueId : String
  quantity : ℚ
  price : ℚ
  deriving Repr, DecidableEq

/-- Modelled from the spec: `ExecutionResult` (§3). -/
structure ExecutionResult where
  filledQuantity : ℚ
  volumeWeightedPrice : ℚ
  feesPaid : ℚ
  venueBreakdown : List Fill
  deriving Repr, DecidableEq

/-- A venue's resting levels on the side relevant to the request, tagged
with the venue id and taker fee. -/
def venueLevels (side : Side) (v : VenueBook) : List RouteLevel :=
  match side with
  | .buy => v.asks.map (fun l => ⟨v.venueId, l.price, l.size, v.takerFee⟩)
  | .sell => v.bids.map (fun l => ⟨v.venueId, l.price, l.size, v.takerFee⟩)

/-- Whether price `p` is strictly better than `q` for the given side:
lower for a buy, higher for a sell. -/
def betterPrice (side : Side) (p q : ℚ) : Bool :=
  match side with
  | .buy => decide (p < q)
  | .sell => decide (q < p)

/-- Stable insertion into a price-ordered level sequence: a level is
placed before an existing one only when its price is strictly better, so
ties keep the earlier venue first (spec §4.5 tie-breaking). -/
def insertLevel (side : Side) (x : RouteLevel) :
    List RouteLevel → List RouteLevel
  | [] => [x]
  | y :: ys =>
      if betterPrice side x.price y.price then x :: y :: ys
      else y :: insertLevel side x ys

/-- Stable insertion sort of levels, best price first. -/
def sortLevels (side : Side) : List RouteLevel → List RouteLevel
  | [] => []
  | x :: xs => insertLevel side x (sortLevels side xs)

/-- Modelled from the spec: merge all venues' resting levels on the
relevant side into one price-ordered sequence, best price first, ties
broken by venue iteration order (§4.5). -/
def mergeLevels (side : Side) (vs : List VenueBook) : List RouteLevel :=
  sortLevels side ((vs.map (venueLevels side)).flatten)

/-- Modelled from the spec: walk the merged sequence, consuming levels
until the target quantity is filled; `none` when liquidity is exhausted
first (§4.5). -/
def walk (target : ℚ) : List RouteLevel → Option (List RawFill)
  | [] => if target ≤ 0 then some [] else none
  | l :: ls =>
      if target ≤ 0 then some []
      else if target ≤ l.size then some [⟨l.venueId, target, l.price, l.fee⟩]
      else (walk (target - l.size) ls).map
        (fun fs => ⟨l.venueId, l.size, l.price, l.fee⟩ :: fs)

/-- Total quantity of a list of fills. -/
def rawQty (fs : List RawFill) : ℚ := (fs.map (·.quantity)).sum

/-- Total traded notional (quantity × price) of a list of fills. -/
def rawNotional (fs : List RawFill) : ℚ :=
  (fs.map (fun f => f.quantity * f.price)).sum

/-- Total taker fees of a list of fills: each venue's fee applied to the
quantity (notional) filled at that venue (spec §4.5). -/
def rawFees (fs : List RawFill) : ℚ :=
  (fs.map (fun f => f.quantity * f.price * f.fee)).sum

/-- Builds the `ExecutionResult` of a completed walk: volume-weighted
average price over the fills, per-venue taker fees, and the
`(venueId, quantity, price)` breakdown. -/
def resultOfFills (fs : List RawFill) : ExecutionResult :=
  { filledQuantity := rawQty fs
    volumeWeightedPrice := rawNotional fs / rawQty fs
    feesPaid := rawFees fs
    venueBreakdown := fs.map (fun f => ⟨f.venueId, f.quantity, f.price⟩) }

/-- Modelled from the spec: the smart route of an execute request
(§4.4–§4.5): requests are accepted only when status is Live — any other
state fails fast with `InvalidState` before any book walk; a Live request
walks the merged levels and fails with `InsufficientLiquidity` when
aggregate depth cannot fill the target. -/
def executeSmart (status : SystemStatus) (side : Side) (qty : ℚ)
    (vs : List VenueBook) : Except ExecError ExecutionResult :=
  match status with
  | .live =>
      match walk qty (mergeLevels side vs) with
      | none => .error .insufficientLiquidity
      | some fs => .ok (resultOfFills fs)
  | _ => .error .invalidState

/-- A venue's touch (best single-level) quote on the relevant side. -/
def touchQuote (side : Side) (v : VenueBook) : Option RouteLevel :=
  (venueLevels side v).head?

/-- Modelled from the spec: the venue offering the best single-level
price for the side, ties won by the earlier venue (§4.5 naive
baseline). -/
def naiveQuote (side : Side) (vs : List VenueBook) : Option RouteLevel :=
  vs.foldl (fun acc v =>
    match touchQuote side v with
    | none => acc
    | some t =>
        match acc with
        | none => some t
        | some b => if betterPrice side t.price b.price then some t
                    else some b) none

/-- Modelled from the spec: the naive baseline fills the entire quantity
at the best-touch venue's touch price, ignoring depth limits beyond that
single level (§4.5), with that venue's taker fee applied. -/
def naiveExec (side : Side) (qty : ℚ) (vs : List VenueBook) :
    Option ExecutionResult :=
  (naiveQuote side vs).map (fun t =>
    { filledQuantity := qty
      volumeWeightedPrice := t.price
      feesPaid := qty * t.price * t.fee
      venueBreakdown := [⟨t.venueId, qty, t.price⟩] })

/-- Fee-inclusive volume-weighted unit price of an execution result. -/
def feeAdjustedVWAP (r : ExecutionResult) : ℚ :=
  r.volumeWeightedPrice + r.feesPaid / r.filledQuantity

/-- Aggregate resting depth on the relevant side across all venues. -/
def sideDepth (side : Side) (vs : List VenueBook) : ℚ :=
  (((vs.map (venueLevels side)).flatten).map (·.size)).sum

/-- C3: an execute request received while the system status is not Live
(Warming or Degraded) is rejected with `InvalidState` — no book walk, no
`ExecutionResult` — and a Live request is never rejected with
`InvalidState`. -/
theorem C3_invalid_state (status : SystemStatus) (side : Side) (qty : ℚ)
    (vs : List VenueBook) :
    (status ≠ .live → executeSmart status side qty vs = .error .invalidState) ∧
    executeSmart .live side qty vs ≠ .error .invalidState := by
  constructor
  · intro h
    cases status with
    | live => exact absurd rfl h
    | warming => rfl
    | degraded => rfl
  · unfold executeSmart
    cases walk qty (mergeLevels side vs) <;> simp

theorem C3_invalid_state_witness :
    SystemStatus.warming ≠ SystemStatus.live ∧
    executeSmart .warming .buy 1 [demoBinanceBook, demoKrakenBook]
      = .error .invalidState :=
  ⟨by decide,
    (C3_invalid_state .warming .buy 1 [demoBinanceBook, demoKrakenBook]).1
      (by decide)⟩

theorem walk_eq_none (t : ℚ) (ls : List RouteLevel)
    (hsz : ∀ l ∈ ls, 0 ≤ l.size) (h : (ls.map (·.size)).sum < t) :
    walk t ls = none := by
  induction ls generalizing t with
  | nil =>
    simp only [List.map_nil, List.sum_nil] at h
    simp [walk, not_le.mpr h]
  | cons l ls ih =>
    have hl : 0 ≤ l.size := hsz l (by simp)
    have hrest : ∀ x ∈ ls, 0 ≤ x.size := fun x hx => hsz x (by simp [hx])
    have hrsum : 0 ≤ (ls.map (·.size)).sum := by
      apply List.sum_nonneg
      intro y hy
      obtain ⟨z, hz, rfl⟩ := List.mem_map.mp hy
      exact hrest z hz
    simp only [List.map_cons, List.sum_cons] at h
    have ht0 : ¬ t ≤ 0 := by linarith
    have hts : ¬ t ≤ l.size := by linarith
    simp only [walk, if_neg ht0, if_neg hts,
      ih (t - l.size) hrest (by linarith)]
    rfl

theorem walk_sum (t : ℚ) (ls : List RouteLevel) (fs : List RawFill)
    (h : walk t ls = some fs) (ht : 0 ≤ t) : rawQty fs = t := by
  induction ls generalizing t fs with
  | nil =>
    simp only [walk] at h
    split at h
    · cases h
      have : t = 0 := le_antisymm (by assumption) ht
      simp [rawQty, this]
    · cases h
  | cons l ls ih =>
    simp only [walk] at h
    split at h
    · cases h
      have : t = 0 := le_antisymm (by assumption) ht
      simp [rawQty, this]
    · split at h
      · cases h
        simp [rawQty]
      · cases hw : walk (t - l.size) ls with
        | none => rw [hw] at h; cases h
        | some fs' =>
          rw [hw] at h
          cases h
          have hle : l.size < t := not_le.mp (by assumption)
          have := ih (t - l.size) fs' hw (by linarith)
          simp only [rawQty, List.map_cons, List.sum_cons] at this ⊢
          linarith

theorem insertLevel_perm (side : Side) (x : RouteLevel)
    (l : List RouteLevel) : List.Perm (insertLevel side x l) (x :: l) := by
  induction l with
  | nil => exact List.Perm.refl _
  | cons y ys ih =>
    unfold insertLevel
    split
    · exact List.Perm.refl _
    · exact (List.Perm.cons y ih).trans (List.Perm.swap x y ys)

theorem sortLevels_perm (side : Side) (l : List RouteLevel) :
    List.Perm (sortLevels side l) l := by
  induction l with
  | nil => exact List.Perm.refl _
  | cons x xs ih =>
    exact (insertLevel_perm side x (sortLevels side xs)).trans
      (List.Perm.cons x ih)

theorem mergeLevels_sum_sizes (side : Side) (vs : List VenueBook) :
    ((mergeLevels side vs).map (·.size)).sum = sideDepth side vs :=
  ((sortLevels_perm side ((vs.map (venueLevels side)).flatten)).map
    (·.size)).sum_eq

theorem mergeLevels_sizes_nonneg (side : Side) (vs : List VenueBook)
    (hsz : ∀ v ∈ vs,
      (∀ l ∈ v.bids, 0 ≤ l.size) ∧ (∀ l ∈ v.asks, 0 ≤ l.size)) :
    ∀ l ∈ mergeLevels side vs, 0 ≤ l.size := by
  intro l hl
  have hmem : l ∈ (vs.map (venueLevels side)).flatten :=
    (sortLevels_perm side _).mem_iff.mp hl
  obtain ⟨L, hL, hlL⟩ := List.mem_flatten.mp hmem
  obtain ⟨v, hv, rfl⟩ := List.mem_map.mp hL
  cases side with
  | buy =>
    obtain ⟨p, hp, rfl⟩ := List.mem_map.mp hlL
    exact (hsz v hv).2 p hp
  | sell =>
    obtain ⟨p, hp, rfl⟩ := List.mem_map.mp hlL
    exact (hsz v hv).1 p hp

/-- C8: an SOR request whose target quantity exceeds the aggregate
resting depth of the relevant side across all venues returns the
structured failure `InsufficientLiquidity`, and every successful result
fills exactly the requested quantity — no partial fill is returned as
success. -/
theorem C8_no_partial_fill (side : Side) (qty : ℚ) (vs : List VenueBook)
    (hsz : ∀ v ∈ vs,
      (∀ l ∈ v.bids, 0 ≤ l.size) ∧ (∀ l ∈ v.asks, 0 ≤ l.size)) :
    (sideDepth side vs < qty →
      executeSmart .live side qty vs = .error .insufficientLiquidity) ∧
    (∀ r, executeSmart .live side qty vs = .ok r → 0 ≤ qty →
      r.filledQuantity = qty) := by
  constructor
  · intro hlt
    have hnone : walk qty (mergeLevels side vs) = none := by
      apply walk_eq_none qty _ (mergeLevels_sizes_nonneg side vs hsz)
      rw [mergeLevels_sum_sizes]
      exact hlt
    unfold executeSmart
    rw [hnone]
  · intro r hr hq
    unfold executeSmart at hr
    cases hw : walk qty (mergeLevels side vs) with
    | none => rw [hw] at hr; cases hr
    | some fs =>
      rw [hw] at hr
      cases hr
      show (resultOfFills fs).filledQuantity = qty
      simp [resultOfFills, walk_sum qty _ fs hw hq]

/-- Venue A of the fragmented-liquidity scenario: 0.5 units at the best
ask price 100. -/
def cexVenueA : VenueBook :=
  { venueId := "A", bids := [], asks := [⟨100, 1/2⟩],
    takerFee := 0, stale := false }

theorem C8_no_partial_fill_witness :
    (∀ v ∈ [cexVenueA],
      (∀ l ∈ v.bids, 0 ≤ l.size) ∧ (∀ l ∈ v.asks, 0 ≤ l.size)) ∧
    sideDepth .buy [cexVenueA] < 1 ∧
    executeSmart .live .buy 1 [cexVenueA] = .error .insufficientLiquidity := by
  have hsz : ∀ v ∈ [cexVenueA],
      (∀ l ∈ v.bids, 0 ≤ l.size) ∧ (∀ l ∈ v.asks, 0 ≤ l.size) := by
    norm_num [cexVenueA]
  have hlt : sideDepth .buy [cexVenueA] < 1 := by
    norm_num [sideDepth, venueLevels, cexVenueA]
  exact ⟨hsz, hlt, (C8_no_partial_fill .buy 1 [cexVenueA] hsz).1 hlt⟩

/-- Venue B of the fragmented-liquidity scenario: 1 unit at the worse
ask price 200. -/
def cexVenueB : VenueBook :=
  { venueId := "B", bids := [], asks := [⟨200, 1⟩],
    takerFee := 0, stale := false }

/-- The smart route's result on the fragmented scenario: 0.5@A(100) and
0.5@B(200), VWAP 150, no fees. -/
def cexSmartResult : ExecutionResult :=
  { filledQuantity := 1, volumeWeightedPrice := 150, feesPaid := 0,
    venueBreakdown := [⟨"A", 1/2, 100⟩, ⟨"B", 1/2, 200⟩] }

/-- The naive baseline's result on the fragmented scenario: the whole
unit at venue A's touch price 100 (depth limits ignored, spec §4.5). -/
def cexNaiveResult : ExecutionResult :=
  { filledQuantity := 1, volumeWeightedPrice := 100, feesPaid := 0,
    venueBreakdown := [⟨"A", 1, 100⟩] }

/-- C2 counterexample: a BUY of 1.0 where venue A offers 0.5 at best ask
100 and venue B offers 1.0 at ask 200 (zero fees).  The smart route
fully fills (0.5@A + 0.5@B, fee-inclusive VWAP 150) yet is strictly
worse than the naive baseline's fee-inclusive price 100 — the claimed
universal non-negative price improvement fails. -/
theorem C2_counterexample :
    executeSmart .live .buy 1 [cexVenueA, cexVenueB] = .ok cexSmartResult ∧
    naiveExec .buy 1 [cexVenueA, cexVenueB] = some cexNaiveResult ∧
    ¬ feeAdjustedVWAP cexSmartResult ≤ feeAdjustedVWAP cexNaiveResult := by
  refine ⟨?_, ?_, ?_⟩
  · norm_num [executeSmart, mergeLevels, sortLevels, insertLevel, venueLevels,
      betterPrice, walk, resultOfFills, rawQty, rawNotional, rawFees,
      cexVenueA, cexVenueB, cexSmartResult, List.flatten]
  · norm_num [naiveExec, naiveQuote, touchQuote, venueLevels, betterPrice,
      cexVenueA, cexVenueB, cexNaiveResult]
  · norm_num [feeAdjustedVWAP, cexSmartResult, cexNaiveResult]

theorem walk_fills (t : ℚ) (ls : List RouteLevel) (fs : List RawFill)
    (h : walk t ls = some fs) (hsz : ∀ l ∈ ls, 0 ≤ l.size) :
    ∀ f ∈ fs, 0 ≤ f.quantity ∧ ∃ l ∈ ls, f.price = l.price ∧ f.fee = l.fee := by
  induction ls generalizing t fs with
  | nil =>
    simp only [walk] at h
    split at h
    · cases h
      intro f hf
      simp at hf
    · cases h
  | cons l ls ih =>
    simp only [walk] at h
    split at h
    · cases h
      intro f hf
      simp at hf
    · rename_i ht0
      split at h
      · cases h
        intro f hf
        simp only [List.mem_singleton] at hf
        subst hf
        refine ⟨le_of_lt (not_le.mp ht0), l, by simp, rfl, rfl⟩
      · cases hw : walk (t - l.size) ls with
        | none => rw [hw] at h; cases h
        | some fs' =>
          rw [hw] at h
          cases h
          intro f hf
          rcases List.mem_cons.mp hf with rfl | hf'
          · exact ⟨hsz l (by simp), l, by simp, rfl, rfl⟩
          · obtain ⟨hq', l', hl', hp, hfee⟩ :=
              ih (t - l.size) fs' hw (fun x hx => hsz x (by simp [hx])) f hf'
            exact ⟨hq', l', by simp [hl'], hp, hfee⟩

theorem rawCost_le (fs : List RawFill) (C : ℚ)
    (h : ∀ f ∈ fs, 0 ≤ f.quantity ∧ f.price * (1 + f.fee) ≤ C) :
    rawNotional fs + rawFees fs ≤ C * rawQty fs := by
  induction fs with
  | nil => simp [rawNotional, rawFees, rawQty]
  | cons f fs ih =>
    obtain ⟨hq, hc⟩ := h f (by simp)
    have ihh := ih (fun g hg => h g (by simp [hg]))
    simp only [rawNotional, rawFees, rawQty, List.map_cons,
      List.sum_cons] at ihh ⊢
    nlinarith [mul_le_mul_of_nonneg_left hc hq]

/-- C2 amended: for a BUY the smart route fully fills, its fee-inclusive
volume-weighted price is no worse than the naive best-touch venue's
fee-inclusive price whenever liquidity is favorably fragmented — every
merged level's fee-adjusted price is at most the naive venue's
fee-adjusted touch price; without that condition the improvement can be
negative (see the counterexample). -/
theorem C2_smart_vs_naive (qty : ℚ) (vs : List VenueBook)
    (r : ExecutionResult) (nv : RouteLevel)
    (hsz : ∀ v ∈ vs,
      (∀ l ∈ v.bids, 0 ≤ l.size) ∧ (∀ l ∈ v.asks, 0 ≤ l.size))
    (hq : 0 < qty)
    (hr : executeSmart .live .buy qty vs = .ok r)
    (_hn : naiveQuote .buy vs = some nv)
    (hfav : ∀ l ∈ mergeLevels .buy vs,
      l.price * (1 + l.fee) ≤ nv.price * (1 + nv.fee)) :
    feeAdjustedVWAP r ≤ nv.price * (1 + nv.fee) := by
  unfold executeSmart at hr
  cases hw : walk qty (mergeLevels .buy vs) with
  | none => rw [hw] at hr; cases hr
  | some fs =>
    rw [hw] at hr
    cases hr
    have hqty : rawQty fs = qty := walk_sum qty _ fs hw (le_of_lt hq)
    have hfill := walk_fills qty _ fs hw (mergeLevels_sizes_nonneg .buy vs hsz)
    have hbound : ∀ f ∈ fs, 0 ≤ f.quantity
        ∧ f.price * (1 + f.fee) ≤ nv.price * (1 + nv.fee) := by
      intro f hf
      obtain ⟨hq', l', hl', hp, hfee⟩ := hfill f hf
      refine ⟨hq', ?_⟩
      rw [hp, hfee]
      exact hfav l' hl'
    have hcost := rawCost_le fs (nv.price * (1 + nv.fee)) hbound
    rw [hqty] at hcost
    have hvwap : feeAdjustedVWAP (resultOfFills fs)
        = (rawNotional fs + rawFees fs) / qty := by
      simp [feeAdjustedVWAP, resultOfFills, hqty, div_add_div_same]
    rw [hvwap, div_le_iff₀ hq]
    linarith [hcost]

/-- Venue A with a favorable fee structure: 0.5 at best ask 100, 1% fee
(fee-adjusted cost 101). -/
def favVenueA : VenueBook :=
  { venueId := "A", bids := [], asks := [⟨100, 1/2⟩],
    takerFee := 1/100, stale := false }

/-- Venue B: 1.0 at the worse ask 100.5, zero fee (fee-adjusted cost
100.5, below venue A's 101). -/
def favVenueB : VenueBook :=
  { venueId := "B", bids := [], asks := [⟨201/2, 1⟩],
    takerFee := 0, stale := false }

/-- The smart route's result on the favorable scenario: 0.5@A(100) and
0.5@B(100.5) with venue A's 1% fee on its half. -/
def favSmartResult : ExecutionResult :=
  { filledQuantity := 1, volumeWeightedPrice := 401/4, feesPaid := 1/2,
    venueBreakdown := [⟨"A", 1/2, 100⟩, ⟨"B", 1/2, 201/2⟩] }

theorem C2_smart_vs_naive_witness :
    (0 : ℚ) < 1 ∧
    executeSmart .live .buy 1 [favVenueA, favVenueB] = .ok favSmartResult ∧
    naiveQuote .buy [favVenueA, favVenueB] = some ⟨"A", 100, 1/2, 1/100⟩ ∧
    favSmartResult.venueBreakdown = [⟨"A", 1/2, 100⟩, ⟨"B", 1/2, 201/2⟩] ∧
    feeAdjustedVWAP favSmartResult ≤ 100 * (1 + 1/100) := by
  have hsz : ∀ v ∈ [favVenueA, favVenueB],
      (∀ l ∈ v.bids, 0 ≤ l.size) ∧ (∀ l ∈ v.asks, 0 ≤ l.size) := by
    norm_num [favVenueA, favVenueB]
  have hr : executeSmart .live .buy 1 [favVenueA, favVenueB]
      = .ok favSmartResult := by
    norm_num [executeSmart, mergeLevels, sortLevels, insertLevel, venueLevels,
      betterPrice, walk, resultOfFills, rawQty, rawNotional, rawFees,
      favVenueA, favVenueB, favSmartResult, List.flatten]
  have hn : naiveQuote .buy [favVenueA, favVenueB]
      = some ⟨"A", 100, 1/2, 1/100⟩ := by
    norm_num [naiveQuote, touchQuote, venueLevels, betterPrice,
      favVenueA, favVenueB]
  have hfav : ∀ l ∈ mergeLevels .buy [favVenueA, favVenueB],
      l.price * (1 + l.fee)
        ≤ (RouteLevel.mk "A" 100 (1/2) (1/100)).price
          * (1 + (RouteLevel.mk "A" 100 (1/2) (1/100)).fee) := by
    norm_num [mergeLevels, sortLevels, insertLevel, venueLevels, betterPrice,
      favVenueA, favVenueB, List.flatten]
  have h := C2_smart_vs_naive 1 [favVenueA, favVenueB] favSmartResult
    ⟨"A", 100, 1/2, 1/100⟩ hsz (by norm_num) hr hn hfav
  refine ⟨by norm_num, hr, hn, rfl, by simpa using h⟩

/-! ## Frontend theorems -/

/-- C9: the chart-history ring buffer appends the new point, never grows
beyond its capacity of 50, appends without eviction below capacity,
evicts exactly the oldest entry at capacity, and the surviving entries
are a suffix of the appended sequence, preserving arrival order. -/
theorem C9_chart_ring_buffer {α : Type} (prev : List α) (x : α) :
    (appendChartPoint prev x).length ≤ 50 ∧
    (prev.length < 50 → appendChartPoint prev x = prev ++ [x]) ∧
    (prev.length = 50 → appendChartPoint prev x = prev.drop 1 ++ [x]) ∧
    List.IsSuffix (appendChartPoint prev x) (prev ++ [x]) := by
  refine ⟨?_, ?_, ?_, ?_⟩
  · simp only [appendChartPoint, List.length_drop, List.length_append,
      List.length_singleton]
    omega
  · intro h
    have h0 : (prev ++ [x]).length - 50 = 0 := by
      simp only [List.length_append, List.length_singleton]
      omega
    rw [appendChartPoint, h0, List.drop_zero]
  · intro h
    have h1 : (prev ++ [x]).length - 50 = 1 := by
      simp only [List.length_append, List.length_singleton]
      omega
    rw [appendChartPoint, h1, List.drop_append_of_le_length (by omega)]
  · exact List.drop_suffix _ _

theorem C9_chart_ring_buffer_witness :
    (List.replicate 50 (0 : ℕ)).length = 50 ∧
    appendChartPoint (List.replicate 50 (0 : ℕ)) 7
      = (List.replicate 50 (0 : ℕ)).drop 1 ++ [7] ∧
    (appendChartPoint (List.replicate 50 (0 : ℕ)) 7).length ≤ 50 :=
  ⟨by simp,
    (C9_chart_ring_buffer (List.replicate 50 (0 : ℕ)) 7).2.2.1 (by simp),
    (C9_chart_ring_buffer (List.replicate 50 (0 : ℕ)) 7).1⟩

/-- C10: `calculateArbitrage` returns `null` exactly when the Binance
ask or the Kraken bid is zero; otherwise it returns
`grossProfit = krakenBid − binanceAsk`,
`totalFees = 0.001·binanceAsk + 0.0026·krakenBid`,
`netProfit = grossProfit − totalFees`, with `isProfitable` true exactly
when `netProfit` strictly exceeds the configured minimum profit; in
particular a result (with negative gross profit) is returned even when
the Kraken bid is below the Binance ask. -/
theorem C10_calculate_arbitrage (ask bid minP : ℚ) :
    (calculateArbitrage ask bid minP = none ↔ ask = 0 ∨ bid = 0) ∧
    (∀ r, calculateArbitrage ask bid minP = some r →
      r.grossProfit = bid - ask ∧
      r.totalFees = ask * 0.001 + bid * 0.0026 ∧
      r.netProfit = r.grossProfit - r.totalFees ∧
      (r.isProfitable = true ↔ minP < r.netProfit)) ∧
    (ask ≠ 0 → bid ≠ 0 → bid < ask →
      ∃ r, calculateArbitrage ask bid minP = some r ∧ r.grossProfit < 0) := by
  refine ⟨?_, ?_, ?_⟩
  · constructor
    · intro hnone
      by_contra hcon
      push_neg at hcon
      unfold calculateArbitrage at hnone
      rw [if_neg (by tauto)] at hnone
      cases hnone
    · intro h
      simp [calculateArbitrage, h]
  · intro r hr
    unfold calculateArbitrage at hr
    split at hr
    · cases hr
    · cases hr
      refine ⟨rfl, ?_, ?_, ?_⟩
      · show ask * binanceTradingFee + bid * krakenTradingFee
          = ask * 0.001 + bid * 0.0026
        norm_num [binanceTradingFee, krakenTradingFee]
      · rfl
      · simp
  · intro h1 h2 hlt
    have hne : ¬ (ask = 0 ∨ bid = 0) := by tauto
    refine ⟨{ grossProfit := bid - ask,
              totalFees := ask * binanceTradingFee + bid * krakenTradingFee,
              netProfit := bid - ask
                - (ask * binanceTradingFee + bid * krakenTradingFee),
              profitMargin := (bid - ask
                - (ask * binanceTradingFee + bid * krakenTradingFee))
                / ask * 100,
              isProfitable := decide (minP < bid - ask
                - (ask * binanceTradingFee + bid * krakenTradingFee)) },
      ?_, ?_⟩
    · unfold calculateArbitrage
      rw [if_neg hne]
    · show bid - ask < 0
      linarith

/-- The concrete result of `calculateArbitrage` on the demo market data
with the default $50 minimum-profit threshold. -/
def demoArbResult : ArbResult :=
  { grossProfit := 101.57, totalFees := 423.87259, netProfit := -322.30259,
    profitMargin := -322.30259 / 117669.03 * 100, isProfitable := false }

theorem C10_calculate_arbitrage_witness :
    calculateArbitrage demoBinanceAsk demoKrakenBid 50 = some demoArbResult ∧
    demoArbResult.grossProfit = demoKrakenBid - demoBinanceAsk ∧
    demoArbResult.totalFees
      = demoBinanceAsk * 0.001 + demoKrakenBid * 0.0026 ∧
    demoArbResult.netProfit
      = demoArbResult.grossProfit - demoArbResult.totalFees ∧
    (demoArbResult.isProfitable = true ↔ (50 : ℚ) < demoArbResult.netProfit)
    := by
  have hsome : calculateArbitrage demoBinanceAsk demoKrakenBid 50
      = some demoArbResult := by
    norm_num [calculateArbitrage, binanceTradingFee, krakenTradingFee,
      demoBinanceAsk, demoKrakenBid, demoArbResult, ArbResult.mk.injEq,
      decide_eq_false_iff_not]
  have h := (C10_calculate_arbitrage demoBinanceAsk demoKrakenBid 50).2.1
    demoArbResult hsome
  exact ⟨hsome, h.1, h.2.1, h.2.2.1, h.2.2.2⟩
